import Mathlib

/-!
Shallow embedding of the core pipeline of `app.py` (Egyptian PO processor):
the product catalog, page-text extraction, product identification, quantity
extraction, per-document processing, the batch loop, and the aggregation
block.  Python strings are modelled as `List Char` (one entry per Unicode
code point); Python dicts that are used as insertion-ordered accumulators are
modelled as association lists updated in place; a raised-and-not-caught
exception inside `process_pdf` is modelled as `Except.error`.
-/

namespace EgyptPO

/-- Decidable equality for `Except`, used to evaluate concrete runs of the
pipeline. -/
instance {ε α : Type} [DecidableEq ε] [DecidableEq α] : DecidableEq (Except ε α) := fun x y =>
  match x, y with
  | Except.ok a, Except.ok b =>
    if h : a = b then isTrue (by rw [h]) else isFalse (by intro hh; injection hh; exact h (by assumption))
  | Except.error a, Except.error b =>
    if h : a = b then isTrue (by rw [h]) else isFalse (by intro hh; injection hh; exact h (by assumption))
  | Except.ok _, Except.error _ => isFalse (fun hh => Except.noConfusion hh)
  | Except.error _, Except.ok _ => isFalse (fun hh => Except.noConfusion hh)

/-- Page text: the list of Unicode code points of the Python string. -/
abbrev Text := List Char

/-- Splits a regex source string at each occurrence of the two-character
sequence `.*`.  The catalog patterns in `PRODUCT_MAP` use no regex
metacharacters other than `.*`, so a pattern denotes its literal fragments
joined by `.*`. -/
def splitDotStar : Text → List Text
  | [] => [[]]
  | '.' :: '*' :: rest => [] :: splitDotStar rest
  | c :: rest =>
    match splitDotStar rest with
    | [] => [[c]]
    | f :: fs => (c :: f) :: fs

/-- One backtracking matcher for a fragment sequence `f₁.*f₂.*…` anchored
near the current position: either the head fragment starts here, or one
character that is not a newline is skipped (in the default regex mode `.`
does not match `\n`).  `fuel` bounds the recursion depth; every caller
supplies more than `t.length + frags.length`. -/
def gmatchF : Nat → List Text → Text → Bool
  | 0, _, _ => false
  | _ + 1, [], _ => true
  | fuel + 1, f :: fs, t =>
    (f.isPrefixOf t && gmatchF fuel fs (t.drop f.length)) ||
    (match t with
     | [] => false
     | c :: u => !(c == '\n') && gmatchF fuel (f :: fs) u)

/-- Tries the fragment sequence at every start position of the text, as
`re.search` does (the implicit leading gap may cross newlines). -/
def searchF : Nat → List Text → Text → Bool
  | 0, _, _ => false
  | fuel + 1, frags, t =>
    gmatchF (t.length + frags.length + 1) frags t ||
    (match t with
     | [] => false
     | _ :: u => searchF fuel frags u)

/-- Boolean result of searching a compiled (fragment-list) pattern in a text. -/
def reSearch (frags : List Text) (t : Text) : Bool :=
  searchF (t.length + 1) frags t

/-- Models `re.search(pattern, text, re.IGNORECASE)` for the pattern dialect
used in `PRODUCT_MAP` (literal fragments joined by `.*`).  Case folding is
ASCII lower-casing on both sides; the only cased characters in the catalog
patterns are ASCII, so this coincides with the regex engine's folding on
these patterns. -/
def patMatchCI (pat : String) (t : Text) : Bool :=
  reSearch ((splitDotStar pat.data).map (List.map Char.toLower)) (t.map Char.toLower)

/-- The product catalog `PRODUCT_MAP` of `app.py` (lines 85-89); the list
order is the insertion order of the Python dict. -/
def PRODUCT_MAP : List (String × List String) :=
  [("NeoMune", ["نو ميون", "Enteral powder.*cachectic"]),
   ("Aminoleban Oral", ["أمينوليبان", "Amino Acid.*Hepatic.*Can"]),
   ("Blendera MF", ["بليندرا", "Lactose free.*low cholesterol"])]

/-- The inner loop of `identify_product`: does any pattern of this catalog
entry match the text? -/
def entryMatches (e : String × List String) (t : Text) : Bool :=
  e.2.any (fun pat => patMatchCI pat t)

/-- The outer loop of `identify_product`: the first entry (in catalog order)
with a matching pattern wins. -/
def idLoop : List (String × List String) → Text → Option String
  | [], _ => none
  | e :: rest, t => if entryMatches e t then some e.1 else idLoop rest t

/-- Models `identify_product` (app.py lines 105-111): returns the canonical
name of the first catalog entry one of whose patterns matches, else `None`. -/
def identify_product (t : Text) : Option String :=
  idLoop PRODUCT_MAP t

/-- Characters matched by the regex class `\s` (ASCII range; the texts in
this development contain no non-ASCII whitespace). -/
def isSpaceChar (c : Char) : Bool :=
  c == ' ' || c == '\t' || c == '\n' || c == '\r' || c == '\x0b' || c == '\x0c'

/-- The Arabic quantity label `الكمية` of the `extract_quantity` regex. -/
def arabicQtyLabel : Text := "الكمية".data

/-- The English quantity label of the `extract_quantity` regex. -/
def englishQtyLabel : Text := "Quantity".data

/-- Decimal value of the digit string captured by `(\d+)`. -/
def parseNat (ds : Text) : Nat :=
  ds.foldl (fun a c => a * 10 + (c.toNat - 48)) 0

/-- Matches `\s*[:;]?\s*(\d+)` at the start of the text and returns the
captured integer.  The greedy, deterministic scan is equivalent to the regex
here because whitespace, `:`/`;` and digits are disjoint character classes. -/
def qtyAfterLabel (t : Text) : Option Nat :=
  let t1 := t.dropWhile isSpaceChar
  let t2 := match t1 with
    | c :: u => if c == ':' || c == ';' then u else t1
    | [] => t1
  let ds := (t2.dropWhile isSpaceChar).takeWhile Char.isDigit
  if ds.isEmpty then none else some (parseNat ds)

/-- First regex alternative `الكمية\s*[:;]?\s*(\d+)` at the current position:
on success, the value of capture group 1. -/
def tryArabicAt (t : Text) : Option Nat :=
  if arabicQtyLabel.isPrefixOf t then qtyAfterLabel (t.drop arabicQtyLabel.length)
  else none

/-- Second regex alternative `Quantity\s*[:;]?\s*(\d+)` at the current
position (its digits fill capture group 2, not group 1). -/
def tryEnglishAt (t : Text) : Bool :=
  englishQtyLabel.isPrefixOf t && (qtyAfterLabel (t.drop englishQtyLabel.length)).isSome

/-- Leftmost-match scan of the `extract_quantity` regex, as `re.search`
performs it: at each position the first alternative is tried before the
second.  `some (some n)` = Arabic alternative matched, group 1 holds `n`;
`some none` = English alternative matched, group 1 is unset; `none` = no
match anywhere. -/
def qtyScan : Text → Option (Option Nat)
  | [] => none
  | c :: rest =>
    match tryArabicAt (c :: rest) with
    | some n => some (some n)
    | none => if tryEnglishAt (c :: rest) then some none else qtyScan rest

/-- Models `extract_quantity` (app.py lines 113-116).  The source line
`return int(match.group(1) if match else 0` lacks its closing parenthesis (a
SyntaxError as written); it is modelled with the evident intended grouping
`int(match.group(1) if match else 0)`.  An Arabic-label match returns the
captured integer; an English-label match leaves group 1 as `None`, so
`int(None)` raises `TypeError`, modelled as `Except.error ()`; no match
returns `int(0) = 0`. -/
def extract_quantity (t : Text) : Except Unit Nat :=
  match qtyScan t with
  | some (some n) => Except.ok n
  | some none => Except.error ()
  | none => Except.ok 0

/-- One line item of a document result. -/
structure LineItem where
  item_name : String
  quantity : Nat
  deriving DecidableEq

/-- The fixed `hospital_data` dict of `process_pdf`. -/
structure HospitalData where
  name : String
  request_no : String
  deriving DecidableEq

/-- The `results` dict assembled by `process_pdf`. -/
structure DocResult where
  po_number : String
  date : String
  hospital_data : HospitalData
  summary_items : List LineItem
  ocr_pages : List String
  deriving DecidableEq

/-- A PDF page, by the outcome of `page.get_text()`: the text, or a raised
exception. -/
abbrev Page := Except Unit Text

/-- A PDF byte stream, by the outcome of `fitz.open`: `none` when the stream
is not a well-formed PDF (the call raises). -/
abbrev PDFFile := Option (List Page)

/-- Models `extract_text` (app.py lines 98-103): `page.get_text()` guarded by
a bare `except` returning the empty string. -/
def extract_text (p : Page) : Text :=
  match p with
  | Except.ok t => t
  | Except.error _ => []

/-- The page loop of `process_pdf` (app.py lines 130-137): per page, extract
text, identify the product, and if one is identified append a line item whose
quantity is `extract_quantity(text) or 10`.  A `TypeError` raised by
`extract_quantity` aborts the whole loop (it propagates to the `except` of
`process_pdf`). -/
def processPages : List Page → Except Unit (List LineItem)
  | [] => Except.ok []
  | p :: ps =>
    let text := extract_text p
    match identify_product text with
    | none => processPages ps
    | some product =>
      match extract_quantity text with
      | Except.error e => Except.error e
      | Except.ok q =>
        match processPages ps with
        | Except.error e => Except.error e
        | Except.ok items => Except.ok (⟨product, if q = 0 then 10 else q⟩ :: items)

/-- Models `process_pdf` (app.py lines 118-143).  `now_hms` and `now_ymd`
stand for the two `datetime.now().strftime` results (the wall clock is passed
in as a parameter).  A malformed file makes `fitz.open` raise, and any
exception inside the body is caught by the `except` clause, which returns
`None`. -/
def process_pdf (now_hms now_ymd : String) (file : PDFFile) : Option DocResult :=
  match file with
  | none => none
  | some pages =>
    match processPages pages with
    | Except.error _ => none
    | Except.ok items =>
      some ⟨"DEMO-" ++ now_hms, now_ymd, ⟨"Demo Hospital", "DEMO-REQ"⟩, items, []⟩

/-- One entry of the `processed_data` list built by the batch loop. -/
structure BatchEntry where
  file_name : String
  data : Option DocResult
  error : Option String
  deriving DecidableEq

/-- The body of the batch loop (app.py lines 166-192) for one uploaded file:
a truthy `process_pdf` result yields a success entry, `None` yields the
failure entry with error string `"Processing failed"`. -/
def entryFor (now_hms now_ymd : String) (nf : String × PDFFile) : BatchEntry :=
  match process_pdf now_hms now_ymd nf.2 with
  | some r => ⟨nf.1, some r, none⟩
  | none => ⟨nf.1, none, some "Processing failed"⟩

/-- The batch loop (app.py lines 164-195): appends one entry per uploaded
file, in order. -/
def processBatch (now_hms now_ymd : String) (files : List (String × PDFFile)) :
    List BatchEntry :=
  files.foldl (fun acc nf => acc ++ [entryFor now_hms now_ymd nf]) []

/-- Models `d[k] = d.get(k, 0) + v` on an insertion-ordered Python dict:
an existing key is updated in place, a new key is appended. -/
def upsert (m : List (String × Nat)) (k : String) (v : Nat) : List (String × Nat) :=
  match m with
  | [] => [(k, v)]
  | (k0, v0) :: rest => if k0 = k then (k0, v0 + v) :: rest else (k0, v0) :: upsert rest k v

/-- Folds `upsert` over a list of key/value pairs. -/
def foldUpsert (m : List (String × Nat)) (l : List (String × Nat)) : List (String × Nat) :=
  l.foldl (fun acc kv => upsert acc kv.1 kv.2) m

/-- The `summary_items` of an entry with data, else nothing (the aggregation
loops guard on `if file_data['data']`). -/
def entryItems (e : BatchEntry) : List LineItem :=
  match e.data with
  | none => []
  | some d => d.summary_items

/-- The `consolidated_items` dict (app.py lines 201-209): for each successful
file, for each summary item, add its quantity under its item name. -/
def consolidated_items (p : List BatchEntry) : List (String × Nat) :=
  p.foldl (fun acc e => foldUpsert acc ((entryItems e).map (fun it => (it.item_name, it.quantity)))) []

/-- One row of the hospital-distribution table (app.py lines 214-221); every
key of the Python dicts involved is always present, so each `get` with the
`'[MISSING]'` default returns the stored value. -/
structure DistRow where
  po_number : String
  date : String
  hospital : String
  item : String
  quantity : Nat
  request_no : String
  deriving DecidableEq

/-- The hospital-distribution rows contributed by one batch entry. -/
def rowsFor (e : BatchEntry) : List DistRow :=
  match e.data with
  | none => []
  | some d => d.summary_items.map (fun it =>
      ⟨d.po_number, d.date, d.hospital_data.name, it.item_name, it.quantity,
       d.hospital_data.request_no⟩)

/-- The `hospital_distribution` list (app.py lines 211-221): one row per
(successful document, line item) pair, in order. -/
def hospital_distribution (p : List BatchEntry) : List DistRow :=
  p.foldl (fun acc e => acc ++ rowsFor e) []

/-- The `hospital_totals` dict (app.py lines 223-226): quantities of the
distribution rows summed per item name. -/
def hospital_totals (p : List BatchEntry) : List (String × Nat) :=
  foldUpsert [] ((hospital_distribution p).map (fun r => (r.item, r.quantity)))

/-- Models `sum(hospital_totals.values())`. -/
def sumVals (m : List (String × Nat)) : Nat :=
  (m.map Prod.snd).sum

/-- One row of the consolidated-items or item-totals tables. -/
structure ReportRow where
  item : String
  total_quantity : Nat
  deriving DecidableEq

/-- Formats a dict as the list of its rows, as the comprehensions of app.py
lines 230-236 do. -/
def toReportRows (m : List (String × Nat)) : List ReportRow :=
  m.map (fun kv => ⟨kv.1, kv.2⟩)

/-- The `aggregated_data` dict of three tables (app.py lines 229-237). -/
structure AggregatedData where
  consolidated_en_items : List ReportRow
  multi_file_hospital_distribution : List DistRow
  hospital_dist_item_totals : List ReportRow
  deriving DecidableEq

/-- The aggregation block's output for a processed batch: the three report
tables, the item-totals table ending in the synthetic `GRAND TOTAL` row. -/
def aggregate (p : List BatchEntry) : AggregatedData :=
  ⟨toReportRows (consolidated_items p),
   hospital_distribution p,
   toReportRows (hospital_totals p) ++ [⟨"GRAND TOTAL", sumVals (hospital_totals p)⟩]⟩

/-- The guarded aggregation (app.py line 199): the block runs only when some
entry has data; otherwise `st.session_state.aggregated_data` is never set for
this batch (absent, modelled as `none`). -/
def aggregated_data (p : List BatchEntry) : Option AggregatedData :=
  if p.any (fun e => e.data.isSome) then some (aggregate p) else none

/-- Quantity recorded for an item name in a report table, if the item has a
row (the first row with that name counts, names are unique by construction). -/
def rlookup (k : String) (rows : List ReportRow) : Option Nat :=
  (rows.find? (fun r => r.item == k)).map (fun r => r.total_quantity)

/-- Sum of the quantities of a report table's rows. -/
def rsum (rows : List ReportRow) : Nat :=
  (rows.map (fun r => r.total_quantity)).sum

/-- Page text of the spec's example scenario: contains `نو ميون` and
`الكمية: 25`. -/
def text5 : Text := "نو ميون".data ++ [' '] ++ arabicQtyLabel ++ [':', ' ', '2', '5']

/-- Page text that identifies NeoMune and states quantity 0. -/
def textZero : Text := "نو ميون".data ++ [' '] ++ arabicQtyLabel ++ [':', ' ', '0']

/-- Page text that identifies NeoMune and states no quantity at all. -/
def textNoQty : Text := "نو ميون".data

/-- Page text that identifies NeoMune (English pattern) and carries an
English-labelled quantity field. -/
def textEng : Text := "Enteral powder cachectic ".data ++ englishQtyLabel ++ [':', ' ', '2', '5']

/-- The (item name, quantity) pairs contributed by one batch entry to the
aggregations. -/
def pairsOf (e : BatchEntry) : List (String × Nat) :=
  (entryItems e).map (fun it => (it.item_name, it.quantity))

/-- The flattened (item name, quantity) sequence of a batch, in the order
both aggregation loops traverse it. -/
def itemPairs : List BatchEntry → List (String × Nat)
  | [] => []
  | e :: p => pairsOf e ++ itemPairs p

/-- Recursive form of the hospital-distribution table. -/
def rowsList : List BatchEntry → List DistRow
  | [] => []
  | e :: p => rowsFor e ++ rowsList p

/-- A concrete successful batch entry (one NeoMune line item of quantity 25)
used to instantiate theorems with hypotheses. -/
def entryDemo : BatchEntry :=
  ⟨"demo.pdf", some ⟨"DEMO-1", "2025-01-01", ⟨"Demo Hospital", "DEMO-REQ"⟩,
    [⟨"NeoMune", 25⟩], []⟩, none⟩

end EgyptPO

namespace EgyptPO

/-- Value of `Char.ofNat` at a valid code point. -/
theorem char_toNat_ofNat {n : Nat} (h : Nat.isValidChar n) : (Char.ofNat n).toNat = n := by
  rw [Char.ofNat, dif_pos h]
  simp [Char.ofNatAux, Char.toNat, UInt32.toNat]

theorem toLower_eq_self {c : Char} (h : ¬(c.toNat ≥ 65 ∧ c.toNat ≤ 90)) :
    c.toLower = c := by
  simp only [Char.toLower]
  rw [if_neg h]

theorem toLower_eq_ofNat {c : Char} (h : c.toNat ≥ 65 ∧ c.toNat ≤ 90) :
    c.toLower = Char.ofNat (c.toNat + 32) := by
  simp only [Char.toLower]
  rw [if_pos h]

theorem toUpper_eq_self {c : Char} (h : ¬(c.toNat ≥ 97 ∧ c.toNat ≤ 122)) :
    c.toUpper = c := by
  simp only [Char.toUpper]
  rw [if_neg h]

theorem toUpper_eq_ofNat {c : Char} (h : c.toNat ≥ 97 ∧ c.toNat ≤ 122) :
    c.toUpper = Char.ofNat (c.toNat - 32) := by
  simp only [Char.toUpper]
  rw [if_pos h]

/-- ASCII lower-casing is idempotent. -/
theorem toLower_idem (c : Char) : c.toLower.toLower = c.toLower := by
  by_cases h : c.toNat ≥ 65 ∧ c.toNat ≤ 90
  · have h2 : c.toLower.toNat = c.toNat + 32 := by
      rw [toLower_eq_ofNat h, char_toNat_ofNat (Or.inl (by omega))]
    exact toLower_eq_self (by rw [h2]; omega)
  · simp only [toLower_eq_self h]

/-- Lower-casing after upper-casing folds to plain lower-casing. -/
theorem toLower_toUpper (c : Char) : c.toUpper.toLower = c.toLower := by
  by_cases h : c.toNat ≥ 97 ∧ c.toNat ≤ 122
  · have h2 : c.toUpper.toNat = c.toNat - 32 := by
      rw [toUpper_eq_ofNat h, char_toNat_ofNat (Or.inl (by omega))]
    rw [toLower_eq_ofNat (by rw [h2]; omega), h2]
    have h3 : c.toNat - 32 + 32 = c.toNat := by omega
    rw [h3, Char.ofNat_toNat, toLower_eq_self (by omega)]
  · rw [toUpper_eq_self h]

theorem comp_toLower_toLower : Char.toLower ∘ Char.toLower = Char.toLower :=
  funext toLower_idem

theorem comp_toLower_toUpper : Char.toLower ∘ Char.toUpper = Char.toLower :=
  funext toLower_toUpper

/-- Lower-casing the text does not change a case-insensitive pattern match. -/
theorem patMatchCI_map_toLower (pat : String) (t : Text) :
    patMatchCI pat (t.map Char.toLower) = patMatchCI pat t := by
  unfold patMatchCI
  rw [List.map_map, comp_toLower_toLower]

/-- Upper-casing the text does not change a case-insensitive pattern match. -/
theorem patMatchCI_map_toUpper (pat : String) (t : Text) :
    patMatchCI pat (t.map Char.toUpper) = patMatchCI pat t := by
  unfold patMatchCI
  rw [List.map_map, comp_toLower_toUpper]

theorem any_patMatch_congr (ps : List String) {t t' : Text}
    (h : ∀ pat, patMatchCI pat t = patMatchCI pat t') :
    ps.any (fun pat => patMatchCI pat t) = ps.any (fun pat => patMatchCI pat t') := by
  induction ps with
  | nil => rfl
  | cons p ps ih => simp only [List.any_cons, h, ih]

theorem entryMatches_congr (e : String × List String) {t t' : Text}
    (h : ∀ pat, patMatchCI pat t = patMatchCI pat t') :
    entryMatches e t = entryMatches e t' :=
  any_patMatch_congr e.2 h

theorem idLoop_congr (L : List (String × List String)) {t t' : Text}
    (h : ∀ pat, patMatchCI pat t = patMatchCI pat t') :
    idLoop L t = idLoop L t' := by
  induction L with
  | nil => rfl
  | cons e rest ih => simp only [idLoop, entryMatches_congr e h, ih]

/-- First-match semantics of the catalog loop: if every entry before `e`
fails and `e` matches, the loop returns `e`'s canonical name. -/
theorem idLoop_first {t : Text} (pre : List (String × List String))
    (e : String × List String) (post : List (String × List String))
    (hpre : ∀ e' ∈ pre, entryMatches e' t = false)
    (he : entryMatches e t = true) :
    idLoop (pre ++ e :: post) t = some e.1 := by
  induction pre with
  | nil => simp only [List.nil_append, idLoop, he, if_true]
  | cons a pre ih =>
    have ha := hpre a (by simp)
    simp only [List.cons_append, idLoop, ha, Bool.false_eq_true, if_false]
    exact ih (fun e' he' => hpre e' (List.mem_cons_of_mem a he'))

/-- If no catalog entry matches the text, the loop returns `none`. -/
theorem idLoop_nomatch {t : Text} (L : List (String × List String))
    (h : ∀ e ∈ L, entryMatches e t = false) :
    idLoop L t = none := by
  induction L with
  | nil => rfl
  | cons a rest ih =>
    have ha := h a (by simp)
    simp only [idLoop, ha, Bool.false_eq_true, if_false]
    exact ih (fun e he => h e (List.mem_cons_of_mem a he))

theorem foldUpsert_append (m l1 l2 : List (String × Nat)) :
    foldUpsert m (l1 ++ l2) = foldUpsert (foldUpsert m l1) l2 := by
  simp [foldUpsert, List.foldl_append]

theorem foldl_foldUpsert (p : List BatchEntry) :
    ∀ acc, p.foldl (fun acc e => foldUpsert acc (pairsOf e)) acc = foldUpsert acc (itemPairs p) := by
  induction p with
  | nil => intro acc; rfl
  | cons e p ih =>
    intro acc
    simp only [List.foldl_cons, itemPairs, foldUpsert_append, ih]

/-- The consolidated-items dict is the upsert-fold of the flattened item
sequence. -/
theorem consolidated_items_eq (p : List BatchEntry) :
    consolidated_items p = foldUpsert [] (itemPairs p) :=
  foldl_foldUpsert p []

theorem foldl_rows (p : List BatchEntry) :
    ∀ acc, p.foldl (fun acc e => acc ++ rowsFor e) acc = acc ++ rowsList p := by
  induction p with
  | nil => intro acc; simp [rowsList]
  | cons e p ih =>
    intro acc
    simp only [List.foldl_cons, rowsList, ih, List.append_assoc]

theorem hospital_distribution_eq (p : List BatchEntry) :
    hospital_distribution p = rowsList p := by
  have h := foldl_rows p []
  simpa [hospital_distribution] using h

/-- Projecting the distribution rows back to (item, quantity) pairs recovers
exactly the flattened item sequence. -/
theorem rowsList_map_pairs (p : List BatchEntry) :
    (rowsList p).map (fun r => (r.item, r.quantity)) = itemPairs p := by
  induction p with
  | nil => rfl
  | cons e p ih =>
    simp only [rowsList, itemPairs, List.map_append, ih]
    congr 1
    unfold rowsFor pairsOf entryItems
    cases e.data with
    | none => rfl
    | some d => simp [List.map_map, Function.comp]

/-- The hospital-totals dict is the upsert-fold of the same flattened item
sequence. -/
theorem hospital_totals_eq (p : List BatchEntry) :
    hospital_totals p = foldUpsert [] (itemPairs p) := by
  unfold hospital_totals
  rw [hospital_distribution_eq, rowsList_map_pairs]

/-- Core agreement: the two aggregations of the batch are the same dict. -/
theorem consolidated_eq_totals (p : List BatchEntry) :
    consolidated_items p = hospital_totals p := by
  rw [consolidated_items_eq, hospital_totals_eq]

theorem sumVals_upsert (m : List (String × Nat)) (k : String) (v : Nat) :
    sumVals (upsert m k v) = sumVals m + v := by
  induction m with
  | nil => simp [upsert, sumVals]
  | cons kv rest ih =>
    obtain ⟨k0, v0⟩ := kv
    by_cases h : k0 = k
    · simp only [upsert, if_pos h, sumVals, List.map_cons, List.sum_cons]
      omega
    · simp only [upsert, if_neg h, sumVals, List.map_cons, List.sum_cons] at ih ⊢
      omega

theorem sumVals_foldUpsert (l : List (String × Nat)) :
    ∀ m, sumVals (foldUpsert m l) = sumVals m + sumVals l := by
  induction l with
  | nil => intro m; simp [foldUpsert, sumVals]
  | cons kv rest ih =>
    intro m
    simp only [foldUpsert, List.foldl_cons]
    have h := ih (upsert m kv.1 kv.2)
    simp only [foldUpsert] at h
    rw [h, sumVals_upsert]
    simp only [sumVals, List.map_cons, List.sum_cons]
    omega

theorem upsert_pos {m : List (String × Nat)} {k : String} {v : Nat} (hv : 0 < v) :
    ∀ _ : (∀ kv ∈ m, 0 < kv.2), ∀ kv ∈ upsert m k v, 0 < kv.2 := by
  induction m with
  | nil =>
    intro _ kv hkv
    simp only [upsert, List.mem_singleton] at hkv
    rw [hkv]
    exact hv
  | cons a rest ih =>
    intro hm kv hkv
    obtain ⟨k0, v0⟩ := a
    by_cases h : k0 = k
    · simp only [upsert, if_pos h] at hkv
      rcases List.mem_cons.mp hkv with hhead | htail
      · rw [hhead]; simp; omega
      · exact hm kv (List.mem_cons_of_mem _ htail)
    · simp only [upsert, if_neg h] at hkv
      rcases List.mem_cons.mp hkv with hhead | htail
      · rw [hhead]; exact hm (k0, v0) (by simp)
      · exact ih (fun kv hk => hm kv (List.mem_cons_of_mem _ hk)) kv htail

theorem foldUpsert_pos {l : List (String × Nat)} (hl : ∀ kv ∈ l, 0 < kv.2) :
    ∀ {m : List (String × Nat)}, (∀ kv ∈ m, 0 < kv.2) →
      ∀ kv ∈ foldUpsert m l, 0 < kv.2 := by
  induction l with
  | nil => intro m hm kv hkv; exact hm kv hkv
  | cons a rest ih =>
    intro m hm kv hkv
    simp only [foldUpsert, List.foldl_cons] at hkv
    exact ih (fun kv h => hl kv (List.mem_cons_of_mem a h))
      (upsert_pos (hl a (by simp)) hm) kv hkv

theorem foldl_append_map (n1 n2 : String) (files : List (String × PDFFile)) :
    ∀ acc, files.foldl (fun acc nf => acc ++ [entryFor n1 n2 nf]) acc
      = acc ++ files.map (entryFor n1 n2) := by
  induction files with
  | nil => intro acc; simp
  | cons f fs ih =>
    intro acc
    simp only [List.foldl_cons, List.map_cons, ih, List.append_assoc, List.singleton_append]

/-- The batch loop is a per-file map: each uploaded file gets exactly one
entry, independent of the other files. -/
theorem processBatch_eq_map (n1 n2 : String) (files : List (String × PDFFile)) :
    processBatch n1 n2 files = files.map (entryFor n1 n2) := by
  have h := foldl_append_map n1 n2 files []
  simpa [processBatch] using h

/-- Every line item emitted by the page loop has positive quantity. -/
theorem processPages_pos (pages : List Page) (items : List LineItem)
    (h : processPages pages = Except.ok items) :
    ∀ it ∈ items, 0 < it.quantity := by
  induction pages generalizing items with
  | nil =>
    simp only [processPages] at h
    injection h with h1
    rw [← h1]
    intro it hit
    cases hit
  | cons p ps ih =>
    simp only [processPages] at h
    cases hid : identify_product (extract_text p) with
    | none =>
      rw [hid] at h
      exact ih items h
    | some product =>
      rw [hid] at h
      cases hq : extract_quantity (extract_text p) with
      | error e => rw [hq] at h; cases h
      | ok q =>
        rw [hq] at h
        cases hr : processPages ps with
        | error e => rw [hr] at h; cases h
        | ok rest =>
          rw [hr] at h
          injection h with h1
          intro it hit
          rw [← h1] at hit
          rcases List.mem_cons.mp hit with hhead | htail
          · rw [hhead]
            by_cases hz : q = 0
            · simp [hz]
            · simp only [if_neg hz]
              omega
          · exact ih rest hr it htail

theorem dropLast_append_one {α : Type} (l : List α) (x : α) :
    (l ++ [x]).dropLast = l := by
  simp

theorem rsum_toReportRows (m : List (String × Nat)) :
    rsum (toReportRows m) = sumVals m := by
  simp only [rsum, toReportRows, sumVals, List.map_map]
  rfl

/-- C1: for every batch whose aggregation ran, the consolidated-items table
and the hospital-distribution item-totals table without its grand-total row
agree at every item name (they are the same mapping), and in particular the
two quantity sums are equal. -/
theorem consolidated_agrees_with_totals (p : List BatchEntry) (agg : AggregatedData)
    (h : aggregated_data p = some agg) :
    (∀ k : String, rlookup k agg.consolidated_en_items
        = rlookup k agg.hospital_dist_item_totals.dropLast) ∧
    rsum agg.consolidated_en_items = rsum agg.hospital_dist_item_totals.dropLast := by
  unfold aggregated_data at h
  split at h
  · injection h with h1
    have ha : (aggregate p).consolidated_en_items = toReportRows (consolidated_items p) := rfl
    have hb : (aggregate p).hospital_dist_item_totals
        = toReportRows (hospital_totals p)
          ++ [⟨"GRAND TOTAL", sumVals (hospital_totals p)⟩] := rfl
    have key : agg.consolidated_en_items = agg.hospital_dist_item_totals.dropLast := by
      rw [← h1, ha, hb, dropLast_append_one, consolidated_eq_totals]
    rw [key]
    exact ⟨fun k => rfl, rfl⟩
  · cases h

theorem consolidated_agrees_with_totals_witness :
    aggregated_data [entryDemo] = some (aggregate [entryDemo]) ∧
    rlookup "NeoMune" (aggregate [entryDemo]).consolidated_en_items
      = rlookup "NeoMune" (aggregate [entryDemo]).hospital_dist_item_totals.dropLast ∧
    rsum (aggregate [entryDemo]).consolidated_en_items
      = rsum (aggregate [entryDemo]).hospital_dist_item_totals.dropLast :=
  ⟨by decide,
   (consolidated_agrees_with_totals [entryDemo] (aggregate [entryDemo]) (by decide)).1 "NeoMune",
   (consolidated_agrees_with_totals [entryDemo] (aggregate [entryDemo]) (by decide)).2⟩

/-- C2: whenever the aggregation ran (some document succeeded), the
item-totals table consists of its other rows followed by one synthetic row
whose item name is exactly "GRAND TOTAL" and whose quantity is the sum of the
quantities of all the other rows. -/
theorem grand_total_is_sum_of_rows (p : List BatchEntry) (agg : AggregatedData)
    (h : aggregated_data p = some agg) :
    agg.hospital_dist_item_totals
      = agg.hospital_dist_item_totals.dropLast
        ++ [⟨"GRAND TOTAL", rsum agg.hospital_dist_item_totals.dropLast⟩] := by
  unfold aggregated_data at h
  split at h
  · injection h with h1
    have hb : (aggregate p).hospital_dist_item_totals
        = toReportRows (hospital_totals p)
          ++ [⟨"GRAND TOTAL", sumVals (hospital_totals p)⟩] := rfl
    rw [← h1, hb, dropLast_append_one, rsum_toReportRows]
  · cases h

theorem grand_total_is_sum_of_rows_witness :
    aggregated_data [entryDemo] = some (aggregate [entryDemo]) ∧
    (aggregate [entryDemo]).hospital_dist_item_totals
      = (aggregate [entryDemo]).hospital_dist_item_totals.dropLast
        ++ [⟨"GRAND TOTAL", rsum (aggregate [entryDemo]).hospital_dist_item_totals.dropLast⟩] :=
  ⟨by decide,
   grand_total_is_sum_of_rows [entryDemo] (aggregate [entryDemo]) (by decide)⟩

/-- C3 (code bug): the code does not distinguish a stated quantity 0 from an
absent quantity field.  `extract_quantity` returns 0 for both page texts, and
the `or 10` default in `process_pdf` then records the identical fabricated
line item (NeoMune, 10) for both — no distinct unknown marker exists
anywhere in the result. -/
theorem quantity_zero_and_absent_collapse :
    extract_quantity textZero = Except.ok 0 ∧
    extract_quantity textNoQty = Except.ok 0 ∧
    processPages [Except.ok textZero] = Except.ok [⟨"NeoMune", 10⟩] ∧
    processPages [Except.ok textNoQty] = Except.ok [⟨"NeoMune", 10⟩] :=
  ⟨by decide, by decide, by decide, by decide⟩

/-- C4: product identification returns the canonical name of the first
catalog entry, in catalog iteration order, one of whose patterns matches
(if every entry before it fails); matching is invariant under lower- or
upper-casing the text; and when no entry matches the result is the explicit
no-match value `none`. -/
theorem identify_product_first_match_ci (t : Text) :
    (∀ pre e post, PRODUCT_MAP = pre ++ e :: post →
        (∀ e' ∈ pre, entryMatches e' t = false) → entryMatches e t = true →
        identify_product t = some e.1) ∧
    (identify_product (t.map Char.toLower) = identify_product t ∧
     identify_product (t.map Char.toUpper) = identify_product t) ∧
    ((∀ e ∈ PRODUCT_MAP, entryMatches e t = false) → identify_product t = none) := by
  refine ⟨?_, ⟨?_, ?_⟩, ?_⟩
  · intro pre e post hmap hpre he
    unfold identify_product
    rw [hmap]
    exact idLoop_first pre e post hpre he
  · exact idLoop_congr PRODUCT_MAP (fun pat => patMatchCI_map_toLower pat t)
  · exact idLoop_congr PRODUCT_MAP (fun pat => patMatchCI_map_toUpper pat t)
  · exact idLoop_nomatch PRODUCT_MAP

theorem identify_product_first_match_ci_witness :
    entryMatches ("NeoMune", ["نو ميون", "Enteral powder.*cachectic"]) text5 = true ∧
    identify_product text5 = some "NeoMune" ∧
    identify_product "no products here".data = none :=
  ⟨by decide,
   (identify_product_first_match_ci text5).1 []
     ("NeoMune", ["نو ميون", "Enteral powder.*cachectic"])
     [("Aminoleban Oral", ["أمينوليبان", "Amino Acid.*Hepatic.*Can"]),
      ("Blendera MF", ["بليندرا", "Lactose free.*low cholesterol"])]
     rfl (fun e' he' => absurd he' (List.not_mem_nil e')) (by decide),
   (identify_product_first_match_ci "no products here".data).2.2 (by decide)⟩

/-- C5: the spec's example scenario.  A one-page document whose text contains
`نو ميون` and `الكمية: 25` yields exactly the line item (NeoMune, 25); the
batch holding just this document yields consolidated items
[(NeoMune, 25)] and item totals [(NeoMune, 25), (GRAND TOTAL, 25)]. -/
theorem example_scenario :
    processPages [Except.ok text5] = Except.ok [⟨"NeoMune", 25⟩] ∧
    aggregated_data (processBatch "120000" "2025-01-01" [("demo.pdf", some [Except.ok text5])])
      = some ⟨[⟨"NeoMune", 25⟩],
              [⟨"DEMO-120000", "2025-01-01", "Demo Hospital", "NeoMune", 25, "DEMO-REQ"⟩],
              [⟨"NeoMune", 25⟩, ⟨"GRAND TOTAL", 25⟩]⟩ :=
  ⟨by decide, by decide⟩

/-- C6 (code bug): an English-labelled quantity field makes
`extract_quantity` raise `TypeError` instead of returning the matched
integer: the English alternative fills capture group 2, but the code reads
only group 1, so `int(None)` raises.  The raise even fails the whole
document.  The Arabic-labelled form does return the matched integer. -/
theorem english_quantity_label_raises :
    extract_quantity "Quantity: 25".data = Except.error () ∧
    extract_quantity (arabicQtyLabel ++ [':', ' ', '2', '5']) = Except.ok 25 ∧
    process_pdf "120000" "2025-01-01" (some [Except.ok textEng]) = none :=
  ⟨by decide, by decide, by decide⟩

/-- C7 counterexample: a document whose first page fails text extraction
still produces a successful result with the good page's line item, but its
diagnostic-note list `ocr_pages` is empty — no diagnostic note is recorded
for the failed page, contrary to the claim. -/
theorem failed_page_leaves_no_note :
    process_pdf "1" "2" (some [Except.error (), Except.ok text5])
      = some ⟨"DEMO-1", "2", ⟨"Demo Hospital", "DEMO-REQ"⟩, [⟨"NeoMune", 25⟩], []⟩ := by
  decide

/-- C7 (amended): page text extraction never raises — a failing page yields
the empty string, contributes no line items, and the rest of the document is
still processed; but no diagnostic note is recorded: the `ocr_pages` note
list of every produced document result is empty. -/
theorem page_failure_nonfatal_no_note :
    extract_text (Except.error ()) = [] ∧
    (∀ ps : List Page, processPages (Except.error () :: ps) = processPages ps) ∧
    (∀ n1 n2 file res, process_pdf n1 n2 file = some res → res.ocr_pages = []) := by
  refine ⟨rfl, fun ps => rfl, ?_⟩
  intro n1 n2 file res h
  cases file with
  | none => cases h
  | some pages =>
    simp only [process_pdf] at h
    cases hr : processPages pages with
    | error e => rw [hr] at h; cases h
    | ok items =>
      rw [hr] at h
      injection h with h1
      rw [← h1]

theorem page_failure_nonfatal_no_note_witness :
    processPages [Except.error ()] = processPages [] ∧
    (⟨"DEMO-1", "2", ⟨"Demo Hospital", "DEMO-REQ"⟩, [], []⟩ : DocResult).ocr_pages = [] :=
  ⟨page_failure_nonfatal_no_note.2.1 [],
   page_failure_nonfatal_no_note.2.2 "1" "2" (some [])
     ⟨"DEMO-1", "2", ⟨"Demo Hospital", "DEMO-REQ"⟩, [], []⟩ (by decide)⟩

theorem entryFor_items_pos (n1 n2 : String) (nf : String × PDFFile) :
    ∀ it ∈ entryItems (entryFor n1 n2 nf), 0 < it.quantity := by
  intro it hit
  unfold entryFor at hit
  cases hp : process_pdf n1 n2 nf.2 with
  | none => rw [hp] at hit; cases hit
  | some r =>
    rw [hp] at hit
    have hit2 : it ∈ r.summary_items := hit
    cases hf : nf.2 with
    | none => rw [hf] at hp; cases hp
    | some pages =>
      rw [hf] at hp
      simp only [process_pdf] at hp
      cases hpr : processPages pages with
      | error e => rw [hpr] at hp; cases hp
      | ok items =>
        rw [hpr] at hp
        injection hp with h2
        rw [← h2] at hit2
        exact processPages_pos pages items hpr it hit2

theorem pairsOf_pos {e : BatchEntry} (h : ∀ it ∈ entryItems e, 0 < it.quantity) :
    ∀ kv ∈ pairsOf e, 0 < kv.2 := by
  intro kv hkv
  simp only [pairsOf, List.mem_map] at hkv
  obtain ⟨it, hit, rfl⟩ := hkv
  exact h it hit

theorem itemPairs_pos {p : List BatchEntry}
    (h : ∀ e ∈ p, ∀ it ∈ entryItems e, 0 < it.quantity) :
    ∀ kv ∈ itemPairs p, 0 < kv.2 := by
  induction p with
  | nil => intro kv hkv; cases hkv
  | cons e p ih =>
    intro kv hkv
    rcases List.mem_append.mp hkv with h1 | h2
    · exact pairsOf_pos (h e (by simp)) kv h1
    · exact ih (fun e' he' => h e' (List.mem_cons_of_mem e he')) kv h2

theorem rowsFor_pos {e : BatchEntry} (h : ∀ it ∈ entryItems e, 0 < it.quantity) :
    ∀ r ∈ rowsFor e, 0 < r.quantity := by
  intro r hr
  unfold rowsFor at hr
  cases hd : e.data with
  | none => rw [hd] at hr; cases hr
  | some d =>
    rw [hd] at hr
    simp only [List.mem_map] at hr
    obtain ⟨it, hit, rfl⟩ := hr
    have hmem : it ∈ entryItems e := by
      unfold entryItems
      rw [hd]
      exact hit
    exact h it hmem

theorem rowsList_pos {p : List BatchEntry}
    (h : ∀ e ∈ p, ∀ it ∈ entryItems e, 0 < it.quantity) :
    ∀ r ∈ rowsList p, 0 < r.quantity := by
  induction p with
  | nil => intro r hr; cases hr
  | cons e p ih =>
    intro r hr
    rcases List.mem_append.mp hr with h1 | h2
    · exact rowsFor_pos (h e (by simp)) r h1
    · exact ih (fun e' he' => h e' (List.mem_cons_of_mem e he')) r h2

theorem processBatch_items_pos (n1 n2 : String) (files : List (String × PDFFile)) :
    ∀ e ∈ processBatch n1 n2 files, ∀ it ∈ entryItems e, 0 < it.quantity := by
  intro e he
  rw [processBatch_eq_map] at he
  simp only [List.mem_map] at he
  obtain ⟨nf, hnf, rfl⟩ := he
  exact entryFor_items_pos n1 n2 nf

/-- C8: the batch outcome is one entry per uploaded file, in order; a
malformed byte stream yields the explicit failure entry with no data and the
failure reason string, never a success-shaped value; and every other file's
entry is exactly what processing that file alone produces. -/
theorem malformed_file_fails_alone (n1 n2 : String) :
    (∀ files, processBatch n1 n2 files = files.map (entryFor n1 n2)) ∧
    (∀ name, entryFor n1 n2 (name, none) = ⟨name, none, some "Processing failed"⟩) ∧
    (∀ name file res, process_pdf n1 n2 file = some res →
        entryFor n1 n2 (name, file) = ⟨name, some res, none⟩) := by
  refine ⟨processBatch_eq_map n1 n2, fun name => rfl, ?_⟩
  intro name file res h
  have hstep : entryFor n1 n2 (name, file)
      = match process_pdf n1 n2 file with
        | some r => (⟨name, some r, none⟩ : BatchEntry)
        | none => ⟨name, none, some "Processing failed"⟩ := rfl
  rw [hstep, h]

theorem malformed_file_fails_alone_witness :
    process_pdf "1" "2" (some [])
      = some ⟨"DEMO-1", "2", ⟨"Demo Hospital", "DEMO-REQ"⟩, [], []⟩ ∧
    entryFor "1" "2" ("a.pdf", some [])
      = ⟨"a.pdf", some ⟨"DEMO-1", "2", ⟨"Demo Hospital", "DEMO-REQ"⟩, [], []⟩, none⟩ ∧
    processBatch "1" "2" [("bad.pdf", none), ("a.pdf", some [])]
      = [⟨"bad.pdf", none, some "Processing failed"⟩,
         ⟨"a.pdf", some ⟨"DEMO-1", "2", ⟨"Demo Hospital", "DEMO-REQ"⟩, [], []⟩, none⟩] :=
  ⟨by decide,
   (malformed_file_fails_alone "1" "2").2.2 "a.pdf" (some [])
     ⟨"DEMO-1", "2", ⟨"Demo Hospital", "DEMO-REQ"⟩, [], []⟩ (by decide),
   by decide⟩

/-- C9 counterexample: for a batch holding one failed document, and for the
empty batch, the aggregation block is skipped entirely: the aggregated data
is the absent value `none` — not a present result holding empty tables as
the claim requires. -/
theorem no_success_aggregation_absent :
    aggregated_data [⟨"bad.pdf", none, some "Processing failed"⟩] = none ∧
    aggregated_data [] = none :=
  ⟨rfl, rfl⟩

/-- C9 (amended): a batch with zero documents or zero successful documents
is not an error: the aggregation block is skipped and the aggregated data
stays absent (`none`) instead of holding empty tables. -/
theorem no_success_skips_aggregation (p : List BatchEntry)
    (h : p.any (fun e => e.data.isSome) = false) :
    aggregated_data p = none := by
  simp [aggregated_data, h]

theorem no_success_skips_aggregation_witness :
    ([⟨"bad.pdf", none, some "Processing failed"⟩] : List BatchEntry).any
        (fun e => e.data.isSome) = false ∧
    aggregated_data [⟨"bad.pdf", none, some "Processing failed"⟩] = none :=
  ⟨by decide, no_success_skips_aggregation _ (by decide)⟩

/-- C10 counterexample: a well-formed document with no product-matching page
is a successful result with no line items; a batch of just this document
produces an item-totals table whose single row is a GRAND TOTAL row carrying
quantity 0 — a report row with quantity 0, contrary to the claim. -/
theorem grand_total_row_can_be_zero :
    process_pdf "1" "2" (some [Except.ok "hello".data])
      = some ⟨"DEMO-1", "2", ⟨"Demo Hospital", "DEMO-REQ"⟩, [], []⟩ ∧
    aggregated_data
        [⟨"empty.pdf", some ⟨"DEMO-1", "2", ⟨"Demo Hospital", "DEMO-REQ"⟩, [], []⟩, none⟩]
      = some ⟨[], [], [⟨"GRAND TOTAL", 0⟩]⟩ :=
  ⟨by decide, by decide⟩

/-- C10 (amended): every line item emitted by document processing has a
strictly positive quantity — a page whose identified product has a stated
quantity of 0 or no quantity field at all is recorded with quantity 10 — and
in the aggregated report of a processed batch every row carries a positive
quantity except possibly the synthetic grand-total row (which is 0 exactly
when no line items exist). -/
theorem line_item_quantities_positive :
    (∀ pages items, processPages pages = Except.ok items → ∀ it ∈ items, 0 < it.quantity) ∧
    (∀ t product ps, identify_product t = some product → extract_quantity t = Except.ok 0 →
        processPages (Except.ok t :: ps)
          = (processPages ps).map (fun items => ⟨product, 10⟩ :: items)) ∧
    (∀ n1 n2 files agg, aggregated_data (processBatch n1 n2 files) = some agg →
        (∀ row ∈ agg.consolidated_en_items, 0 < row.total_quantity) ∧
        (∀ row ∈ agg.multi_file_hospital_distribution, 0 < row.quantity) ∧
        (∀ row ∈ agg.hospital_dist_item_totals.dropLast, 0 < row.total_quantity)) := by
  refine ⟨processPages_pos, ?_, ?_⟩
  · intro t product ps hid hq
    simp only [processPages, extract_text, hid, hq]
    cases hr : processPages ps with
    | error e => rfl
    | ok items => rfl
  · intro n1 n2 files agg h
    unfold aggregated_data at h
    split at h
    · injection h with h1
      have hepos := processBatch_items_pos n1 n2 files
      have hpairs : ∀ kv ∈ itemPairs (processBatch n1 n2 files), 0 < kv.2 :=
        itemPairs_pos hepos
      have hbase : ∀ kv ∈ ([] : List (String × Nat)), 0 < kv.2 :=
        fun kv hkv => absurd hkv (List.not_mem_nil kv)
      refine ⟨?_, ?_, ?_⟩
      · intro row hrow
        rw [← h1] at hrow
        have hc : (aggregate (processBatch n1 n2 files)).consolidated_en_items
            = toReportRows (consolidated_items (processBatch n1 n2 files)) := rfl
        rw [hc] at hrow
        simp only [toReportRows, List.mem_map] at hrow
        obtain ⟨kv, hkv, rfl⟩ := hrow
        rw [consolidated_items_eq] at hkv
        exact foldUpsert_pos hpairs hbase kv hkv
      · intro row hrow
        rw [← h1] at hrow
        have hd : (aggregate (processBatch n1 n2 files)).multi_file_hospital_distribution
            = hospital_distribution (processBatch n1 n2 files) := rfl
        rw [hd, hospital_distribution_eq] at hrow
        exact rowsList_pos hepos row hrow
      · intro row hrow
        rw [← h1] at hrow
        have ht : (aggregate (processBatch n1 n2 files)).hospital_dist_item_totals
            = toReportRows (hospital_totals (processBatch n1 n2 files))
              ++ [⟨"GRAND TOTAL", sumVals (hospital_totals (processBatch n1 n2 files))⟩] := rfl
        rw [ht, dropLast_append_one] at hrow
        simp only [toReportRows, List.mem_map] at hrow
        obtain ⟨kv, hkv, rfl⟩ := hrow
        rw [hospital_totals_eq] at hkv
        exact foldUpsert_pos hpairs hbase kv hkv
    · cases h

theorem line_item_quantities_positive_witness :
    identify_product textZero = some "NeoMune" ∧
    extract_quantity textZero = Except.ok 0 ∧
    processPages [Except.ok textZero]
      = (processPages []).map (fun items => ⟨"NeoMune", 10⟩ :: items) :=
  ⟨by decide, by decide,
   line_item_quantities_positive.2.1 textZero "NeoMune" [] (by decide) (by decide)⟩

end EgyptPO
